import Mathlib

/-!
Shallow embedding of the zod-store persistence core (`src/persistence.ts`):
the migration chain validator in `createZodStore`, the migration engine and
load pipeline in `load`, the version-wrapping save pipeline in `save`, and
the default-value fallback in `getDefault`/`failWith`.

Plain in-memory values (the results of `serializer.parse` and the inputs of
`serializer.stringify`) are modelled by the JSON-like type `Value`; JavaScript
numbers are modelled as rationals so that the `Number.isInteger` check on the
`_version` field is meaningful.  Schemas, serializers and migration functions
are external collaborators and are modelled as plain Lean functions returning
`Except` (a thrown error is `Except.error` carrying the error's description).
Asynchrony collapses in this pure model: `await` of an already-determined
promise is the identity.
-/

namespace ZodStore

/-- A plain JSON-like value: the untyped data flowing through parsing,
migration and validation.  Objects are ordered association lists, mirroring
JavaScript object key ordering. -/
inductive Value where
  | null : Value
  | bool (b : Bool) : Value
  | num (q : ℚ) : Value
  | str (s : String) : Value
  | arr (elems : List Value) : Value
  | obj (fields : List (String × Value)) : Value

/-- Look up the value of a key in an object's field list (first occurrence;
JavaScript objects have unique keys). -/
def lookupField (fields : List (String × Value)) (key : String) : Option Value :=
  match fields with
  | [] => none
  | (k, v) :: rest => if k = key then some v else lookupField rest key

/-- Remove a key from an object's field list, as the rest-spread
`const { _version: _unused, ...extractedData } = parsed` does. -/
def removeField (fields : List (String × Value)) (key : String) :
    List (String × Value) :=
  fields.filter (fun p => p.1 ≠ key)

/-- JavaScript object-spread assignment of one key: overwrite in place when
the key exists, append otherwise. -/
def setField (fields : List (String × Value)) (key : String) (v : Value) :
    List (String × Value) :=
  if fields.any (fun p => p.1 = key) then
    fields.map (fun p => if p.1 = key then (key, v) else p)
  else
    fields ++ [(key, v)]

/-- Does a value have a given top-level object key? -/
def Value.hasTopKey (v : Value) (key : String) : Bool :=
  match v with
  | .obj fields => fields.any (fun p => p.1 = key)
  | _ => false

/-- The numeric reading of a character list: `some` of the decimal value when
the list is non-empty and all digits, `none` otherwise. -/
def charsToNat? (cs : List Char) : Option Nat :=
  if cs = [] then none
  else if cs.all (fun c => c.isDigit) then
    some (cs.foldl (fun n c => n * 10 + (c.toNat - Char.toNat '0')) 0)
  else none

/-- The JavaScript array-index reading of a property key: `some n` when the
key is the canonical decimal representation of an integer `0 ≤ n < 2^32 - 1`
(checked by printing the digits' value back).  Own properties with such keys
enumerate before all other own properties, in ascending numeric order. -/
def arrayIndexKey (s : String) : Option Nat :=
  match charsToNat? s.data with
  | some n => if toString n = s ∧ n < 4294967295 then some n else none
  | none => none

/-- The index properties a JavaScript array contributes when spread into an
object literal: key `"i"` for element `i`, in ascending index order (the
array's `length` property is not enumerable and is not spread). -/
def arrayFields (elems : List Value) : List (String × Value) :=
  elems.enum.map (fun p => (toString p.1, p.2))

/-- The enumeration order of a JavaScript object's own properties, given its
property-creation-order field list: array-index keys first, in ascending
numeric order, then the remaining string keys in creation order.  This is
the key order a serializer such as `JSON.stringify` observes. -/
def enumFields (fields : List (String × Value)) : List (String × Value) :=
  (List.insertionSort
      (fun a b => (arrayIndexKey a.1).getD 0 ≤ (arrayIndexKey b.1).getD 0)
      (fields.filter (fun p => (arrayIndexKey p.1).isSome)))
    ++ fields.filter (fun p => (arrayIndexKey p.1).isNone)

/-- The most-significant-first decimal digit characters of a natural number:
the character list underlying `Nat.repr` (proof-side restatement of the
core printer, used to reason about the array index keys `"0", "1", ...`). -/
def natChars (n : Nat) : List Char :=
  if _h : n < 10 then [Nat.digitChar n]
  else natChars (n / 10) ++ [Nat.digitChar (n % 10)]
termination_by n
decreasing_by exact Nat.div_lt_self (by omega) (by omega)

/-- Error codes of `ZodStoreError` (`src/errors.ts`). -/
inductive ErrorCode where
  | FileRead | FileWrite | InvalidFormat | InvalidVersion
  | UnsupportedVersion | Validation | Migration | Encoding
deriving DecidableEq, Repr

/-- The classified error thrown by load/save operations; `cause` is the
description of the preserved underlying error, when one exists. -/
structure ZodStoreError where
  code : ErrorCode
  message : String
  cause : Option String
deriving DecidableEq, Repr

/-- A pluggable serializer: `parse` throws on malformed input (modelled as
`Except.error`), `stringify` renders a value. -/
structure Serializer where
  parse : String → Except String Value
  stringify : Value → Bool → String
  formatName : String

/-- A migration step: `schema` validates data at version `version`, `migrate`
transforms it to version `version + 1`.  Both may fail (a schema rejection or
a thrown error in the migrate function). -/
structure MigrationStep where
  version : Int
  schema : Value → Except String Value
  migrate : Value → Except String Value

/-- The configured default: a fixed value, or a zero-argument factory invoked
fresh each time a default is needed.  A factory may be stateful in the source;
the model makes its successive results observable by passing it the index of
the invocation. -/
inductive DefaultValue where
  | fixed (v : Value) : DefaultValue
  | factory (f : Nat → Value) : DefaultValue

/-- Resolve the configured default at invocation counter `cnt`, returning the
produced value and the updated counter (a factory consumes one invocation). -/
def resolveDefault : DefaultValue → Nat → Value × Nat
  | .fixed v, cnt => (v, cnt)
  | .factory f, cnt => (f cnt, cnt + 1)

/-- `ZodStoreOptions`: the construction input of `createZodStore`. -/
structure ZodStoreOptions where
  schemaValidate : Value → Except String Value
  schemaEncode : Value → Except String Value
  defaultValue : Option DefaultValue
  version : Option Int
  migrations : List MigrationStep

/-- The configured persistence instance: what the returned `load`/`save`
closures close over. -/
structure Store where
  currentVersion : Option Int
  schemaValidate : Value → Except String Value
  schemaEncode : Value → Except String Value
  defaultValue : Option DefaultValue
  sortedMigrations : List MigrationStep
  serializer : Serializer

/-- `[...migrations].sort((a, b) => a.version - b.version)`: sort the steps
ascending by version. -/
def sortMigrations (migrations : List MigrationStep) : List MigrationStep :=
  List.insertionSort (fun a b => a.version ≤ b.version) migrations

/-- The sequential-chain check: the `for` loop of `createZodStore` requiring
`sortedMigrations[i].version === i + 1`, with `expected` the version expected
at the current position. -/
def checkSequential : List MigrationStep → Int → Except String Unit
  | [], _ => .ok ()
  | m :: rest, expected =>
    if m.version ≠ expected then
      .error ("Migration chain must be sequential starting from version 1. Found version "
        ++ toString m.version)
    else
      checkSequential rest (expected + 1)

/-- The instance assembled by `createZodStore` once the chain checks pass. -/
def mkStore (options : ZodStoreOptions) (serializer : Serializer) : Store :=
  { currentVersion := options.version
    schemaValidate := options.schemaValidate
    schemaEncode := options.schemaEncode
    defaultValue := options.defaultValue
    sortedMigrations := sortMigrations options.migrations
    serializer := serializer }

/-- `createZodStore`: sort the migrations, check the chain is sequential from
version 1, and — when the chain is non-empty — require a configured current
version and a last step at `currentVersion - 1`.  A thrown construction error
is `Except.error`; success returns the configured instance. -/
def createZodStore (options : ZodStoreOptions) (serializer : Serializer) :
    Except String Store :=
  let sorted := sortMigrations options.migrations
  match checkSequential sorted 1 with
  | .error e => .error e
  | .ok () =>
    match sorted.getLast? with
    | none => .ok (mkStore options serializer)
    | some last =>
      match options.version with
      | none =>
        .error "Version is required when migrations are provided. This should be caught by TypeScript."
      | some currentVersion =>
        if last.version ≠ currentVersion - 1 then
          .error ("Migration chain must end at version " ++ toString (currentVersion - 1)
            ++ ", but last migration is for version " ++ toString last.version)
        else
          .ok (mkStore options serializer)

/-- The integer list `[k, k+1, ..., k+n-1]`. -/
def intRangeFrom (k : Int) (n : Nat) : List Int :=
  (List.range n).map (fun (i : Nat) => k + (i : Int))

/-- The error-handling epilogue repeated at every failure site of `load`:
`if (throwOnError || defaultValue === undefined) throw e; return getDefault()`.
Returns the load result together with the updated factory-invocation
counter. -/
def failWith (store : Store) (throwOnError : Bool) (cnt : Nat)
    (e : ZodStoreError) : Except ZodStoreError Value × Nat :=
  match store.defaultValue with
  | none => (.error e, cnt)
  | some d =>
    if throwOnError then (.error e, cnt)
    else ((.ok (resolveDefault d cnt).1), (resolveDefault d cnt).2)

/-- The `_version` field check of `load`: the value must be a number, an
integer (`Number.isInteger`) and strictly positive; on success the file
version is that integer. -/
def asPositiveInt (v : Value) : Option Int :=
  match v with
  | .num q => if q.den = 1 ∧ 0 < q then some q.num else none
  | _ => none

/-- The migration `while` loop of `load`: while `dataVersion` is below the
current version, look up the migration for `dataVersion`, validate the data
against its schema, run its migrate function, and advance.  `Sum.inl` is an
early return of the whole load call (classified error or default), `Sum.inr`
hands the migrated data to the final validation. -/
def migrateLoop (store : Store) (filePath : String) (throwOnError : Bool)
    (cnt : Nat) (currentVersion : Int) (dataVersion : Int) (data : Value) :
    (Except ZodStoreError Value × Nat) ⊕ Value :=
  if _h : dataVersion < currentVersion then
    match store.sortedMigrations.find? (fun m => m.version == dataVersion) with
    | none =>
      .inl (failWith store throwOnError cnt
        ⟨.Migration, "No migration found for version " ++ toString dataVersion
          ++ " in file: " ++ filePath, none⟩)
    | some migration =>
      match migration.schema data with
      | .error err =>
        .inl (failWith store throwOnError cnt
          ⟨.Migration, "Migration from version " ++ toString dataVersion
            ++ " failed in file: " ++ filePath, some err⟩)
      | .ok parsedData =>
        match migration.migrate parsedData with
        | .error err =>
          .inl (failWith store throwOnError cnt
            ⟨.Migration, "Migration from version " ++ toString dataVersion
              ++ " failed in file: " ++ filePath, some err⟩)
        | .ok result =>
          migrateLoop store filePath throwOnError cnt currentVersion
            (dataVersion + 1) result
  else
    .inr data
termination_by (currentVersion - dataVersion).toNat
decreasing_by omega

/-- The final validation of `load`: parse the (possibly migrated) domain
payload with the current schema; a rejection is classified `Validation`. -/
def validateFinal (store : Store) (filePath : String) (throwOnError : Bool)
    (cnt : Nat) (data : Value) : Except ZodStoreError Value × Nat :=
  match store.schemaValidate data with
  | .ok result => ((.ok result), cnt)
  | .error err =>
    failWith store throwOnError cnt
      ⟨.Validation, "Schema validation failed for file: " ++ filePath, some err⟩

/-- `load`: read the file (the read's outcome is the `fileRead` argument; file
I/O is an external collaborator), parse it, in versioned mode extract and
check `_version`, run the migration loop, and validate the result with the
current schema.  Every failure is classified and subjected to the
throw-or-default policy (`failWith`).  `cnt` is the default-factory
invocation counter (see `DefaultValue`). -/
def load (store : Store) (filePath : String) (fileRead : Except String String)
    (throwOnError : Bool) (cnt : Nat) : Except ZodStoreError Value × Nat :=
  match fileRead with
  | .error err =>
    failWith store throwOnError cnt
      ⟨.FileRead, "Failed to read file: " ++ filePath, some err⟩
  | .ok fileContent =>
    match store.serializer.parse fileContent with
    | .error err =>
      failWith store throwOnError cnt
        ⟨.InvalidFormat, "Invalid " ++ store.serializer.formatName
          ++ " in file: " ++ filePath, some err⟩
    | .ok parsed =>
      match store.currentVersion with
      | none => validateFinal store filePath throwOnError cnt parsed
      | some currentVersion =>
        match parsed with
        | .obj fields =>
          match lookupField fields "_version" with
          | none =>
            failWith store throwOnError cnt
              ⟨.InvalidVersion, "Missing _version field in file: " ++ filePath, none⟩
          | some versionValue =>
            match asPositiveInt versionValue with
            | none =>
              failWith store throwOnError cnt
                ⟨.InvalidVersion, "Invalid _version field in file: " ++ filePath, none⟩
            | some fileVersion =>
              if fileVersion > currentVersion then
                failWith store throwOnError cnt
                  ⟨.UnsupportedVersion, "Unsupported file version " ++ toString fileVersion
                    ++ " in " ++ filePath, none⟩
              else
                match migrateLoop store filePath throwOnError cnt currentVersion
                    fileVersion (.obj (removeField fields "_version")) with
                | .inl result => result
                | .inr migrated => validateFinal store filePath throwOnError cnt migrated
        | _ =>
          failWith store throwOnError cnt
            ⟨.InvalidVersion, "Missing _version field in file: " ++ filePath, none⟩

/-- The version wrapper of `save`: in versioned mode, build
`{ _version: currentVersion, ...encoded }`.  The spread guard in the source
is JavaScript's `typeof encoded === 'object' && encoded !== null`, which
arrays also satisfy: an array spreads as its index properties
`"0", "1", ...` (`arrayFields`).  The resulting field list is in
property-creation order — `_version` created first, then the spread
properties; the serialized key order is its enumeration order
(`enumFields`), which places array-index keys ahead of `_version`.  When the
encoded value is a non-object primitive (string, number, boolean or null)
the output is `{ _version: currentVersion }` alone; in unversioned mode the
encoded value is used unmodified. -/
def wrapVersion (currentVersion : Option Int) (encoded : Value) : Value :=
  match currentVersion with
  | none => encoded
  | some v =>
    match encoded with
    | .obj fields =>
      .obj (fields.foldl (fun acc p => setField acc p.1 p.2)
        [("_version", Value.num (v : ℚ))])
    | .arr elems =>
      .obj ((arrayFields elems).foldl (fun acc p => setField acc p.1 p.2)
        [("_version", Value.num (v : ℚ))])
    | _ => .obj [("_version", Value.num (v : ℚ))]

/-- The value `save` passes to `serializer.stringify`: the schema-encoded
data, version-wrapped in versioned mode.  An encoding rejection is classified
`Encoding`. -/
def saveFileData (store : Store) (data : Value) (filePath : String) :
    Except ZodStoreError Value :=
  match store.schemaEncode data with
  | .error err =>
    .error ⟨.Encoding, "Schema encoding failed for file: " ++ filePath, some err⟩
  | .ok encoded => .ok (wrapVersion store.currentVersion encoded)

/-- `save`: encode, wrap, stringify.  The returned string is the text handed
to the file write (file I/O is an external collaborator; a `FileWrite`
failure would be its reclassified error). -/
def save (store : Store) (data : Value) (filePath : String) (compact : Bool) :
    Except ZodStoreError String :=
  match saveFileData store data filePath with
  | .error e => .error e
  | .ok fileData => .ok (store.serializer.stringify fileData compact)

/-- Sequential application of a list of migration steps: for each step in
order, validate with its schema then run its migrate function, classifying
any failure as a `Migration` error that preserves the cause.  The migration
loop of `load`, run on a validated full chain, coincides with `applySteps`
on the chain's suffix starting at the file's version. -/
def applySteps (filePath : String) (steps : List MigrationStep) (data : Value) :
    Except ZodStoreError Value :=
  match steps with
  | [] => .ok data
  | m :: rest =>
    match m.schema data with
    | .error err =>
      .error ⟨.Migration, "Migration from version " ++ toString m.version
        ++ " failed in file: " ++ filePath, some err⟩
    | .ok parsedData =>
      match m.migrate parsedData with
      | .error err =>
        .error ⟨.Migration, "Migration from version " ++ toString m.version
          ++ " failed in file: " ++ filePath, some err⟩
      | .ok result => applySteps filePath rest result

/-! ### Supporting lemmas -/

theorem intRangeFrom_length (k : Int) (n : Nat) : (intRangeFrom k n).length = n := by
  simp [intRangeFrom]

theorem intRangeFrom_succ (k : Int) (n : Nat) :
    intRangeFrom k (n + 1) = k :: intRangeFrom (k + 1) n := by
  unfold intRangeFrom
  rw [List.range_succ_eq_map]
  simp only [List.map_cons, List.map_map, Nat.cast_zero, add_zero]
  congr 1
  apply List.map_congr_left
  intro a _
  simp only [Function.comp_apply]
  push_cast
  ring

theorem intRangeFrom_getLast (k : Int) (n : Nat) :
    (intRangeFrom k (n + 1)).getLast? = some (k + n) := by
  unfold intRangeFrom
  rw [List.range_succ, List.map_append]
  simp

theorem sortMigrations_length (l : List MigrationStep) :
    (sortMigrations l).length = l.length :=
  (List.perm_insertionSort _ l).length_eq

theorem sortMigrations_eq_nil_iff (l : List MigrationStep) :
    sortMigrations l = [] ↔ l = [] := by
  constructor <;> intro h
  · have hl := sortMigrations_length l
    rw [h] at hl
    exact List.eq_nil_of_length_eq_zero hl.symm
  · subst h; rfl

theorem checkSequential_ok_iff (l : List MigrationStep) (k : Int) :
    checkSequential l k = .ok () ↔
      l.map (fun m => m.version) = intRangeFrom k l.length := by
  induction l generalizing k with
  | nil => simp [checkSequential, intRangeFrom]
  | cons m rest ih =>
    rw [List.length_cons, intRangeFrom_succ]
    simp only [checkSequential, List.map_cons]
    by_cases h : m.version = k
    · rw [if_neg (by simp [h]), ih, h]
      constructor
      · intro hr; rw [hr]
      · intro hr; exact (List.cons.injEq _ _ _ _).mp hr |>.2
    · rw [if_pos (by simp [h])]
      constructor
      · intro hr; exact absurd hr (by simp)
      · intro hr; exact absurd ((List.cons.injEq _ _ _ _).mp hr).1 h

theorem getLast_version_of_range (l : List MigrationStep) (last : MigrationStep)
    (n : Nat) (hmap : l.map (fun m => m.version) = intRangeFrom 1 n)
    (hlast : l.getLast? = some last) (hn : 0 < n) : last.version = (n : Int) := by
  obtain ⟨m, rfl⟩ := Nat.exists_eq_succ_of_ne_zero (Nat.pos_iff_ne_zero.mp hn)
  have h1 : (l.map (fun m => m.version)).getLast? = some last.version := by
    rw [List.getLast?_map, hlast]; rfl
  rw [hmap, intRangeFrom_getLast] at h1
  have h2 : (1 : Int) + m = last.version := Option.some.inj h1
  omega

theorem map_length_of_range (l : List MigrationStep) (n : Nat)
    (hmap : l.map (fun m => m.version) = intRangeFrom 1 n) : l.length = n := by
  have := congrArg List.length hmap
  simpa [intRangeFrom_length] using this

theorem failWith_true (store : Store) (cnt : Nat) (e : ZodStoreError) :
    failWith store true cnt e = (.error e, cnt) := by
  unfold failWith
  cases store.defaultValue <;> simp

theorem failWith_none (store : Store) (h : store.defaultValue = none)
    (throwOnError : Bool) (cnt : Nat) (e : ZodStoreError) :
    failWith store throwOnError cnt e = (.error e, cnt) := by
  unfold failWith
  rw [h]

theorem failWith_default (store : Store) (d : DefaultValue)
    (h : store.defaultValue = some d) (cnt : Nat) (e : ZodStoreError) :
    failWith store false cnt e
      = (.ok (resolveDefault d cnt).1, (resolveDefault d cnt).2) := by
  unfold failWith
  rw [h]
  simp

theorem migrateLoop_stop (store : Store) (filePath : String) (throwOnError : Bool)
    (cnt : Nat) (currentVersion dataVersion : Int) (data : Value)
    (h : ¬ dataVersion < currentVersion) :
    migrateLoop store filePath throwOnError cnt currentVersion dataVersion data
      = .inr data := by
  rw [migrateLoop]
  rw [dif_neg h]

theorem migrateLoop_step (store : Store) (filePath : String) (throwOnError : Bool)
    (cnt : Nat) (currentVersion dataVersion : Int) (data : Value)
    (h : dataVersion < currentVersion) :
    migrateLoop store filePath throwOnError cnt currentVersion dataVersion data =
      match store.sortedMigrations.find? (fun m => m.version == dataVersion) with
      | none =>
        .inl (failWith store throwOnError cnt
          ⟨.Migration, "No migration found for version " ++ toString dataVersion
            ++ " in file: " ++ filePath, none⟩)
      | some migration =>
        match migration.schema data with
        | .error err =>
          .inl (failWith store throwOnError cnt
            ⟨.Migration, "Migration from version " ++ toString dataVersion
              ++ " failed in file: " ++ filePath, some err⟩)
        | .ok parsedData =>
          match migration.migrate parsedData with
          | .error err =>
            .inl (failWith store throwOnError cnt
              ⟨.Migration, "Migration from version " ++ toString dataVersion
                ++ " failed in file: " ++ filePath, some err⟩)
          | .ok result =>
            migrateLoop store filePath throwOnError cnt currentVersion
              (dataVersion + 1) result := by
  rw [migrateLoop]
  rw [dif_pos h]

/-- The migration loop's outcome is uniform in the error policy: either it
early-returns through `failWith` with one fixed classified error, or it
completes with one fixed migrated value — independently of `throwOnError`
and of the factory counter. -/
theorem migrateLoop_shape (store : Store) (filePath : String)
    (currentVersion : Int) :
    ∀ (n : Nat) (dataVersion : Int) (data : Value),
      n = (currentVersion - dataVersion).toNat →
      (∃ e, ∀ throwOnError cnt,
          migrateLoop store filePath throwOnError cnt currentVersion dataVersion data
            = .inl (failWith store throwOnError cnt e)) ∨
      (∃ v, ∀ throwOnError cnt,
          migrateLoop store filePath throwOnError cnt currentVersion dataVersion data
            = .inr v) := by
  intro n
  induction n with
  | zero =>
    intro k data hn
    right
    exact ⟨data, fun tOE cnt => migrateLoop_stop _ _ _ _ _ _ _ (by omega)⟩
  | succ n ih =>
    intro k data hn
    by_cases h : k < currentVersion
    · rcases hf : store.sortedMigrations.find? (fun m => m.version == k) with _ | m
      · left
        refine ⟨⟨.Migration, "No migration found for version " ++ toString k
          ++ " in file: " ++ filePath, none⟩, ?_⟩
        intro tOE cnt
        rw [migrateLoop_step _ _ _ _ _ _ _ h]
        simp only [hf]
      · rcases hs : m.schema data with err | parsedData
        · left
          refine ⟨⟨.Migration, "Migration from version " ++ toString k
            ++ " failed in file: " ++ filePath, some err⟩, ?_⟩
          intro tOE cnt
          rw [migrateLoop_step _ _ _ _ _ _ _ h]
          simp only [hf, hs]
        · rcases hm : m.migrate parsedData with err | result
          · left
            refine ⟨⟨.Migration, "Migration from version " ++ toString k
              ++ " failed in file: " ++ filePath, some err⟩, ?_⟩
            intro tOE cnt
            rw [migrateLoop_step _ _ _ _ _ _ _ h]
            simp only [hf, hs, hm]
          · rcases ih (k + 1) result (by omega) with ⟨e, he⟩ | ⟨v, hv⟩
            · left
              refine ⟨e, ?_⟩
              intro tOE cnt
              rw [migrateLoop_step _ _ _ _ _ _ _ h]
              simp only [hf, hs, hm]
              exact he tOE cnt
            · right
              refine ⟨v, ?_⟩
              intro tOE cnt
              rw [migrateLoop_step _ _ _ _ _ _ _ h]
              simp only [hf, hs, hm]
              exact hv tOE cnt
    · right
      exact ⟨data, fun tOE cnt => migrateLoop_stop _ _ _ _ _ _ _ h⟩

theorem validateFinal_shape (store : Store) (filePath : String) (data : Value)
    (throwOnError : Bool) (cnt : Nat) :
    validateFinal store filePath throwOnError cnt data =
      match (validateFinal store filePath true 0 data).1 with
      | .ok v => (.ok v, cnt)
      | .error e => failWith store throwOnError cnt e := by
  unfold validateFinal
  cases store.schemaValidate data <;> simp [failWith_true]

/-- The load pipeline's outcome is one fixed value or one fixed classified
error, and the throw-or-default policy is applied uniformly to that error:
any run of `load` is determined by the strict run (`throwOnError = true`)
through `failWith`. -/
theorem load_shape (store : Store) (filePath : String)
    (fileRead : Except String String) (throwOnError : Bool) (cnt : Nat) :
    load store filePath fileRead throwOnError cnt =
      match (load store filePath fileRead true 0).1 with
      | .ok v => (.ok v, cnt)
      | .error e => failWith store throwOnError cnt e := by
  cases fileRead with
  | error err => simp only [load, failWith_true]
  | ok content =>
    rcases hp : store.serializer.parse content with err | parsed
    · simp only [load, hp, failWith_true]
    · rcases hv : store.currentVersion with _ | currentVersion
      · simp only [load, hp, hv]
        exact validateFinal_shape _ _ _ _ _
      · rcases parsed with _ | _ | _ | _ | elems | fields
        · simp only [load, hp, hv, failWith_true]
        · simp only [load, hp, hv, failWith_true]
        · simp only [load, hp, hv, failWith_true]
        · simp only [load, hp, hv, failWith_true]
        · simp only [load, hp, hv, failWith_true]
        · rcases hlk : lookupField fields "_version" with _ | versionValue
          · simp only [load, hp, hv, hlk, failWith_true]
          · rcases hpi : asPositiveInt versionValue with _ | fileVersion
            · simp only [load, hp, hv, hlk, hpi, failWith_true]
            · by_cases hgt : fileVersion > currentVersion
              · simp only [load, hp, hv, hlk, hpi, if_pos hgt, failWith_true]
              · rcases migrateLoop_shape store filePath currentVersion
                  (currentVersion - fileVersion).toNat fileVersion
                  (.obj (removeField fields "_version")) rfl with ⟨e, he⟩ | ⟨v, hmv⟩
                · simp only [load, hp, hv, hlk, hpi, if_neg hgt, he, failWith_true]
                · simp only [load, hp, hv, hlk, hpi, if_neg hgt, hmv]
                  exact validateFinal_shape _ _ _ _ _

theorem validateFinal_ok (store : Store) (filePath : String) (data : Value)
    (cnt : Nat) (v : Value)
    (h : (validateFinal store filePath true cnt data).1 = .ok v) :
    store.schemaValidate data = .ok v := by
  rcases hs : store.schemaValidate data with err | r
  · simp only [validateFinal, hs, failWith_true] at h
    exact absurd h (by simp)
  · have h2 : r = v := by simpa [validateFinal, hs] using h
    rw [h2]

/-- A successful strict load (`throwOnError = true`) always returns an output
of the current schema's validation. -/
theorem load_strict_ok (store : Store) (filePath : String)
    (fileRead : Except String String) (cnt : Nat) (v : Value)
    (h : (load store filePath fileRead true cnt).1 = .ok v) :
    ∃ data, store.schemaValidate data = .ok v := by
  cases fileRead with
  | error err =>
    simp only [load, failWith_true] at h
    exact absurd h (by simp)
  | ok content =>
    rcases hp : store.serializer.parse content with err | parsed
    · simp only [load, hp, failWith_true] at h
      exact absurd h (by simp)
    · rcases hv : store.currentVersion with _ | currentVersion
      · simp only [load, hp, hv] at h
        exact ⟨parsed, validateFinal_ok _ _ _ _ _ h⟩
      · rcases parsed with _ | _ | _ | _ | elems | fields
        · simp only [load, hp, hv, failWith_true] at h; exact absurd h (by simp)
        · simp only [load, hp, hv, failWith_true] at h; exact absurd h (by simp)
        · simp only [load, hp, hv, failWith_true] at h; exact absurd h (by simp)
        · simp only [load, hp, hv, failWith_true] at h; exact absurd h (by simp)
        · simp only [load, hp, hv, failWith_true] at h; exact absurd h (by simp)
        · rcases hlk : lookupField fields "_version" with _ | versionValue
          · simp only [load, hp, hv, hlk, failWith_true] at h; exact absurd h (by simp)
          · rcases hpi : asPositiveInt versionValue with _ | fileVersion
            · simp only [load, hp, hv, hlk, hpi, failWith_true] at h
              exact absurd h (by simp)
            · by_cases hgt : fileVersion > currentVersion
              · simp only [load, hp, hv, hlk, hpi, if_pos hgt, failWith_true] at h
                exact absurd h (by simp)
              · rcases migrateLoop_shape store filePath currentVersion
                  (currentVersion - fileVersion).toNat fileVersion
                  (.obj (removeField fields "_version")) rfl with ⟨e, he⟩ | ⟨mv, hmv⟩
                · simp only [load, hp, hv, hlk, hpi, if_neg hgt, he, failWith_true] at h
                  exact absurd h (by simp)
                · simp only [load, hp, hv, hlk, hpi, if_neg hgt, hmv] at h
                  exact ⟨mv, validateFinal_ok _ _ _ _ _ h⟩

theorem intRangeFrom_getElem (k : Int) (n : Nat) (i : Nat) (h : i < n) :
    (intRangeFrom k n)[i]? = some (k + i) := by
  unfold intRangeFrom
  rw [List.getElem?_map, List.getElem?_range h]
  rfl

theorem intRangeFrom_drop (k : Int) (n i : Nat) :
    (intRangeFrom k n).drop i = intRangeFrom (k + i) (n - i) := by
  apply List.ext_getElem?
  intro j
  rw [List.getElem?_drop]
  by_cases h : i + j < n
  · rw [intRangeFrom_getElem _ _ _ h, intRangeFrom_getElem _ _ _ (by omega)]
    congr 1
    push_cast
    ring
  · rw [List.getElem?_eq_none (by rw [intRangeFrom_length]; omega),
      List.getElem?_eq_none (by rw [intRangeFrom_length]; omega)]

/-- On a chain whose versions are exactly `base, base+1, ...`, the in-loop
lookup `find? (version == j)` returns the chain element at index `j - base`. -/
theorem find_version (s : List MigrationStep) (base : Int)
    (hs : s.map (fun m => m.version) = intRangeFrom base s.length) :
    ∀ (j : Int), base ≤ j → j < base + s.length →
      s.find? (fun m => m.version == j) = s[(j - base).toNat]? := by
  induction s generalizing base with
  | nil =>
    intro j h1 h2
    simp only [List.length_nil, Nat.cast_zero, add_zero] at h2
    omega
  | cons m rest ih =>
    intro j h1 h2
    rw [List.length_cons, intRangeFrom_succ, List.map_cons] at hs
    have hm : m.version = base := ((List.cons.injEq _ _ _ _).mp hs).1
    have hrest : rest.map (fun m => m.version) = intRangeFrom (base + 1) rest.length :=
      ((List.cons.injEq _ _ _ _).mp hs).2
    by_cases hj : j = base
    · have hpos : (m.version == j) = true := by simp [hm, hj]
      rw [@List.find?_cons_of_pos _ (fun mm => mm.version == j) m rest hpos]
      have h0 : (j - base).toNat = 0 := by omega
      rw [h0]
      simp
    · have hne : ¬ (m.version == j) = true := by
        simp only [beq_iff_eq, hm]
        omega
      rw [@List.find?_cons_of_neg _ (fun mm => mm.version == j) m rest hne]
      rw [ih (base + 1) hrest j (by omega)
        (by rw [List.length_cons] at h2; push_cast at h2 ⊢; omega)]
      have hidx : (j - base).toNat = (j - (base + 1)).toNat + 1 := by omega
      rw [hidx]
      simp

theorem applySteps_error_classified (filePath : String) :
    ∀ (steps : List MigrationStep) (data : Value) (e : ZodStoreError),
      applySteps filePath steps data = .error e →
      e.code = .Migration ∧ e.cause.isSome = true := by
  intro steps
  induction steps with
  | nil =>
    intro data e h
    simp [applySteps] at h
  | cons m rest ih =>
    intro data e h
    rcases hs : m.schema data with err | parsedData
    · simp only [applySteps, hs] at h
      cases h
      exact ⟨rfl, rfl⟩
    · rcases hm : m.migrate parsedData with err | result
      · simp only [applySteps, hs, hm] at h
        cases h
        exact ⟨rfl, rfl⟩
      · simp only [applySteps, hs, hm] at h
        exact ih result e h

/-- The migration loop of `load`, run on a full validated chain `1..V-1`
starting at data version `k`, is exactly `applySteps` on the chain's suffix
from index `k - 1`, with the throw-or-default policy applied to a resulting
error. -/
theorem migrateLoop_eq_applySteps (store : Store) (filePath : String)
    (throwOnError : Bool) (cnt : Nat) (currentVersion : Int)
    (hs : store.sortedMigrations.map (fun m => m.version)
      = intRangeFrom 1 store.sortedMigrations.length)
    (hV : currentVersion = store.sortedMigrations.length + 1) :
    ∀ (n : Nat) (k : Int) (data : Value), n = (currentVersion - k).toNat →
      1 ≤ k → k ≤ currentVersion →
      migrateLoop store filePath throwOnError cnt currentVersion k data =
        match applySteps filePath (store.sortedMigrations.drop (k - 1).toNat) data with
        | .ok d => .inr d
        | .error e => .inl (failWith store throwOnError cnt e) := by
  intro n
  induction n with
  | zero =>
    intro k data hn h1 h2
    rw [migrateLoop_stop _ _ _ _ _ _ _ (by omega)]
    have hdrop : store.sortedMigrations.drop (k - 1).toNat = [] := by
      apply List.drop_eq_nil_of_le
      omega
    rw [hdrop]
    rfl
  | succ n ih =>
    intro k data hn h1 h2
    have hklt : k < currentVersion := by omega
    have hidx : (k - 1).toNat < store.sortedMigrations.length := by omega
    have hm : store.sortedMigrations[(k - 1).toNat]?
        = some (store.sortedMigrations.get ⟨(k - 1).toNat, hidx⟩) :=
      List.getElem?_eq_getElem hidx
    set m := store.sortedMigrations.get ⟨(k - 1).toNat, hidx⟩ with hmdef
    have hfind : store.sortedMigrations.find? (fun mm => mm.version == k) = some m := by
      rw [find_version store.sortedMigrations 1 hs k (by omega) (by omega), hm]
    have hver : m.version = k := by
      have h3 := congrArg (fun l => l[(k - 1).toNat]?) hs
      dsimp only at h3
      rw [List.getElem?_map, hm, intRangeFrom_getElem 1 _ _ hidx] at h3
      have h5 : m.version = 1 + ((k - 1).toNat : Int) := by
        simpa using h3
      omega
    have hdrop : store.sortedMigrations.drop (k - 1).toNat
        = m :: store.sortedMigrations.drop ((k + 1) - 1).toNat := by
      have hidx2 : ((k + 1) - 1).toNat = (k - 1).toNat + 1 := by omega
      rw [hidx2, List.drop_eq_getElem_cons hidx]
      rfl
    rw [migrateLoop_step _ _ _ _ _ _ _ hklt]
    simp only [hfind]
    rw [hdrop]
    rcases hsch : m.schema data with err | parsedData
    · simp only [applySteps, hsch, hver]
    · rcases hmig : m.migrate parsedData with err | result
      · simp only [applySteps, hsch, hmig, hver]
      · simp only [applySteps, hsch, hmig]
        exact ih (k + 1) result (by omega) (by omega) (by omega)

theorem failWith_fst_error (store : Store) (throwOnError : Bool) (cnt : Nat)
    (e0 e : ZodStoreError) (h : (failWith store throwOnError cnt e0).1 = .error e) :
    e = e0 := by
  rcases hd : store.defaultValue with _ | d
  · simp only [failWith, hd] at h
    exact (Except.error.inj h).symm
  · by_cases ht : throwOnError
    · simp only [failWith, hd, if_pos ht] at h
      exact (Except.error.inj h).symm
    · simp only [failWith, hd, if_neg ht] at h
      exact absurd h (by simp)

theorem validateFinal_fst_error (store : Store) (filePath : String)
    (throwOnError : Bool) (cnt : Nat) (data : Value) (e : ZodStoreError)
    (h : (validateFinal store filePath throwOnError cnt data).1 = .error e) :
    e.code = .Validation ∧ e.cause.isSome = true := by
  unfold validateFinal at h
  rcases hs : store.schemaValidate data with err | r
  · simp only [hs] at h
    have h2 := failWith_fst_error _ _ _ _ _ h
    subst h2
    exact ⟨rfl, rfl⟩
  · simp only [hs] at h
    exact absurd h (by simp)

/-- Inversion of a successful construction: the returned instance is the
configured record. -/
theorem createZodStore_ok (options : ZodStoreOptions) (serializer : Serializer)
    (store : Store) (h : createZodStore options serializer = .ok store) :
    store = mkStore options serializer := by
  unfold createZodStore at h
  rcases hc : checkSequential (sortMigrations options.migrations) 1 with e | u
  · simp only [hc] at h
    exact absurd h (by simp)
  · cases u
    simp only [hc] at h
    rcases hl : (sortMigrations options.migrations).getLast? with _ | last
    · simp only [hl] at h
      exact (Except.ok.inj h).symm
    · simp only [hl] at h
      rcases hv : options.version with _ | V
      · simp only [hv] at h
        exact absurd h (by simp)
      · simp only [hv] at h
        by_cases hlv : last.version = V - 1
        · rw [if_neg (by simp [hlv])] at h
          exact (Except.ok.inj h).symm
        · rw [if_pos (by simp [hlv])] at h
          exact absurd h (by simp)

/-- Inversion of a successful construction with a non-empty migrations list:
the sorted chain's versions are exactly `1..len`, and the configured version
is `len + 1`. -/
theorem createZodStore_ok_chain (options : ZodStoreOptions) (serializer : Serializer)
    (store : Store) (currentVersion : Int)
    (h : createZodStore options serializer = .ok store)
    (hver : options.version = some currentVersion)
    (hne : options.migrations ≠ []) :
    store.sortedMigrations.map (fun m => m.version)
      = intRangeFrom 1 store.sortedMigrations.length ∧
    currentVersion = store.sortedMigrations.length + 1 ∧
    store.currentVersion = some currentVersion := by
  have hstore := createZodStore_ok options serializer store h
  subst hstore
  simp only [mkStore]
  have hsne : sortMigrations options.migrations ≠ [] := by
    intro hnil
    exact hne ((sortMigrations_eq_nil_iff _).mp hnil)
  unfold createZodStore at h
  rcases hc : checkSequential (sortMigrations options.migrations) 1 with e | u
  · simp only [hc] at h
    exact absurd h (by simp)
  · cases u
    simp only [hc] at h
    rcases hl : (sortMigrations options.migrations).getLast? with _ | last
    · exact absurd (List.getLast?_eq_none_iff.mp hl) hsne
    · simp only [hl, hver] at h
      have hmap : (sortMigrations options.migrations).map (fun m => m.version)
          = intRangeFrom 1 (sortMigrations options.migrations).length :=
        (checkSequential_ok_iff _ _).mp (by rw [hc])
      by_cases hlv : last.version = currentVersion - 1
      · have hlastv : last.version = ((sortMigrations options.migrations).length : Int) :=
          getLast_version_of_range _ _ _ hmap hl (List.length_pos.mpr hsne)
        exact ⟨hmap, by omega, hver⟩
      · rw [if_pos (by simp [hlv])] at h
        exact absurd h (by simp)

theorem setField_fresh (fields : List (String × Value)) (key : String) (v : Value)
    (h : fields.any (fun p => p.1 = key) = false) :
    setField fields key v = fields ++ [(key, v)] := by
  unfold setField
  rw [if_neg (by simp [h])]

theorem foldl_setField_fresh :
    ∀ (efs acc : List (String × Value)),
      (∀ p ∈ efs, acc.any (fun pp => pp.1 = p.1) = false) →
      (efs.map Prod.fst).Nodup →
      efs.foldl (fun acc2 p => setField acc2 p.1 p.2) acc = acc ++ efs := by
  intro efs
  induction efs with
  | nil =>
    intro acc _ _
    simp
  | cons p rest ih =>
    intro acc hfresh hnodup
    have hnd : p.1 ∉ rest.map Prod.fst :=
      (List.nodup_cons.mp (by simpa using hnodup)).1
    simp only [List.foldl_cons]
    rw [setField_fresh acc p.1 p.2 (hfresh p (List.mem_cons_self _ _))]
    rw [ih (acc ++ [p]) ?fresh (List.nodup_cons.mp (by simpa using hnodup)).2]
    · simp
    case fresh =>
      intro q hq
      have h1 := hfresh q (List.mem_cons_of_mem _ hq)
      have h2 : ¬ (p.1 = q.1) := by
        intro he
        apply hnd
        rw [he]
        exact List.mem_map_of_mem _ hq
      simp [List.any_append, h1, h2]

theorem wrapVersion_obj (v : Int) (efs : List (String × Value))
    (hnc : ∀ p ∈ efs, p.1 ≠ "_version") (hnodup : (efs.map Prod.fst).Nodup) :
    wrapVersion (some v) (.obj efs)
      = .obj (("_version", Value.num ((v : Int) : ℚ)) :: efs) := by
  have hfresh : ∀ p ∈ efs,
      (List.any [("_version", Value.num ((v : Int) : ℚ))] (fun pp => pp.1 = p.1))
        = false := by
    intro p hp
    simp [Ne.symm (hnc p hp)]
  simp only [wrapVersion]
  rw [foldl_setField_fresh efs _ hfresh hnodup]
  rfl

theorem removeField_cons_fresh (efs : List (String × Value)) (v : Value)
    (hnc : ∀ p ∈ efs, p.1 ≠ "_version") :
    removeField (("_version", v) :: efs) "_version" = efs := by
  have htail : efs.filter (fun p => p.1 ≠ "_version") = efs :=
    List.filter_eq_self.mpr (by intro p hp; simpa using hnc p hp)
  unfold removeField
  rw [List.filter_cons]
  simpa using htail

theorem natChars_lt (n : Nat) (h : n < 10) : natChars n = [Nat.digitChar n] := by
  rw [natChars, dif_pos h]

theorem natChars_ge (n : Nat) (h : ¬ n < 10) :
    natChars n = natChars (n / 10) ++ [Nat.digitChar (n % 10)] := by
  conv_lhs => rw [natChars]
  rw [dif_neg h]

theorem toDigitsCore_eq_natChars (fuel : Nat) :
    ∀ (n : Nat) (acc : List Char), n < fuel →
      Nat.toDigitsCore 10 fuel n acc = natChars n ++ acc := by
  induction fuel with
  | zero =>
    intro n acc h
    omega
  | succ fuel ih =>
    intro n acc h
    by_cases h10 : n / 10 = 0
    · have hn : n < 10 := by omega
      simp only [Nat.toDigitsCore, if_pos h10]
      rw [natChars_lt n hn]
      have hmod : n % 10 = n := by omega
      rw [hmod]
      rfl
    · simp only [Nat.toDigitsCore, if_neg h10]
      rw [ih (n / 10) _ (by omega)]
      rw [natChars_ge n (by omega)]
      simp

theorem toDigits_eq_natChars (n : Nat) : Nat.toDigits 10 n = natChars n := by
  unfold Nat.toDigits
  rw [toDigitsCore_eq_natChars (n + 1) n [] (by omega)]
  simp

theorem digitChar_inj (m n : Nat) (hm : m < 10) (hn : n < 10)
    (h : Nat.digitChar m = Nat.digitChar n) : m = n := by
  interval_cases m <;> interval_cases n <;> revert h <;> decide

theorem natChars_ne_nil (n : Nat) : natChars n ≠ [] := by
  by_cases h : n < 10
  · rw [natChars_lt n h]
    simp
  · rw [natChars_ge n h]
    simp

theorem natChars_inj (m : Nat) : ∀ n, natChars m = natChars n → m = n := by
  induction m using Nat.strong_induction_on with
  | _ m ih =>
    intro n h
    by_cases hm : m < 10 <;> by_cases hn : n < 10
    · rw [natChars_lt m hm, natChars_lt n hn] at h
      simp only [List.cons.injEq, and_true] at h
      exact digitChar_inj m n hm hn h
    · rw [natChars_lt m hm, natChars_ge n hn] at h
      have hlen := congrArg List.length h
      simp only [List.length_cons, List.length_nil, List.length_append] at hlen
      have hz : (natChars (n / 10)).length = 0 := by omega
      exact absurd (List.eq_nil_of_length_eq_zero hz) (natChars_ne_nil (n / 10))
    · rw [natChars_ge m hm, natChars_lt n hn] at h
      have hlen := congrArg List.length h
      simp only [List.length_cons, List.length_nil, List.length_append] at hlen
      have hz : (natChars (m / 10)).length = 0 := by omega
      exact absurd (List.eq_nil_of_length_eq_zero hz) (natChars_ne_nil (m / 10))
    · rw [natChars_ge m hm, natChars_ge n hn] at h
      obtain ⟨h1, h2⟩ := List.append_inj' h rfl
      simp only [List.cons.injEq, and_true] at h2
      have e1 : m % 10 = n % 10 := digitChar_inj _ _ (by omega) (by omega) h2
      have e2 : m / 10 = n / 10 := ih (m / 10) (by omega) (n / 10) h1
      omega

theorem natToString_inj (m n : Nat) (h : toString m = toString n) : m = n := by
  have h2 : Nat.repr m = Nat.repr n := h
  unfold Nat.repr at h2
  rw [List.asString_inj] at h2
  rw [toDigits_eq_natChars, toDigits_eq_natChars] at h2
  exact natChars_inj m n h2

theorem natChars_getLast (n : Nat) :
    ∃ m, m < 10 ∧ (natChars n).getLast? = some (Nat.digitChar m) := by
  by_cases h : n < 10
  · exact ⟨n, h, by rw [natChars_lt n h]; rfl⟩
  · exact ⟨n % 10, by omega, by
      rw [natChars_ge n h]
      rw [List.getLast?_concat]⟩

theorem natToString_ne_version (n : Nat) : toString n ≠ "_version" := by
  intro h
  have h2 : Nat.repr n = "_version" := h
  unfold Nat.repr at h2
  rw [List.asString_eq] at h2
  rw [toDigits_eq_natChars] at h2
  obtain ⟨m, hm, hlast⟩ := natChars_getLast n
  rw [h2] at hlast
  have hver : ("_version".toList).getLast? = some ('n' : Char) := rfl
  rw [hver] at hlast
  have h3 : Nat.digitChar m = 'n' := (Option.some.inj hlast).symm
  revert h3
  interval_cases m <;> decide

/-- Spreading a JavaScript array's index properties onto the fresh
`{ _version }` object appends them in order: the index keys are pairwise
distinct and none equals `"_version"`. -/
theorem foldl_setField_arrayFields (v : Value) (elems : List Value) :
    (arrayFields elems).foldl (fun acc p => setField acc p.1 p.2)
        [("_version", v)]
      = ("_version", v) :: arrayFields elems := by
  have hfresh : ∀ p ∈ arrayFields elems,
      (List.any [("_version", v)] (fun pp => pp.1 = p.1)) = false := by
    intro p hp
    obtain ⟨q, _hq, rfl⟩ := List.mem_map.mp hp
    simp [Ne.symm (natToString_ne_version q.1)]
  have hkeys : (arrayFields elems).map Prod.fst
      = (elems.enum.map Prod.fst).map (fun i => toString i) := by
    unfold arrayFields
    rw [List.map_map, List.map_map]
    rfl
  have hnodup : ((arrayFields elems).map Prod.fst).Nodup := by
    rw [hkeys]
    exact (List.nodup_enum_map_fst elems).map
      (fun a b hab => natToString_inj a b hab)
  rw [foldl_setField_fresh (arrayFields elems) [("_version", v)] hfresh hnodup]
  rfl

theorem enumFields_no_index (fields : List (String × Value))
    (h : ∀ p ∈ fields, arrayIndexKey p.1 = none) :
    enumFields fields = fields := by
  unfold enumFields
  have h1 : fields.filter (fun p => (arrayIndexKey p.1).isSome) = [] := by
    rw [List.filter_eq_nil_iff]
    intro p hp
    simp [h p hp]
  have h2 : fields.filter (fun p => (arrayIndexKey p.1).isNone) = fields := by
    rw [List.filter_eq_self]
    intro p hp
    simp [h p hp]
  rw [h1, h2]
  rfl

/-! ### Claim theorems -/

/-- C4: when the parsed document's `_version` is an integer strictly greater
than the current version, the failure is classified `UnsupportedVersion`
(surfaced through the throw-or-default policy), and no migration step is
attempted: neither a migration schema nor a migrate function is consulted,
witnessed by the load outcome being identical for every migrations list. -/
theorem future_version_unsupported_no_migration (store : Store)
    (filePath content : String) (fields : List (String × Value)) (q : ℚ)
    (currentVersion : Int) (throwOnError : Bool) (cnt : Nat)
    (hver : store.currentVersion = some currentVersion)
    (hparse : store.serializer.parse content = .ok (.obj fields))
    (hlk : lookupField fields "_version" = some (.num q))
    (hint : q.den = 1) (hpos : 0 < q) (hfut : currentVersion < q.num) :
    load store filePath (.ok content) throwOnError cnt
      = failWith store throwOnError cnt
          ⟨.UnsupportedVersion, "Unsupported file version " ++ toString q.num
            ++ " in " ++ filePath, none⟩ ∧
    ∀ (migrations : List MigrationStep),
      load { store with sortedMigrations := migrations } filePath (.ok content)
          throwOnError cnt
        = load store filePath (.ok content) throwOnError cnt := by
  have hpi : asPositiveInt (.num q) = some q.num := by
    simp only [asPositiveInt]
    rw [if_pos ⟨hint, hpos⟩]
  constructor
  · simp only [load, hparse, hver, hlk, hpi, if_pos hfut]
  · intro migrations
    simp only [load, hparse, hver, hlk, hpi, if_pos hfut]
    rfl

/-- C4 witness: a version-1 store reading a file at `_version = 2` yields the
`UnsupportedVersion` error. -/
theorem future_version_unsupported_no_migration_witness :
    load { currentVersion := some 1, schemaValidate := fun v => .ok v,
           schemaEncode := fun v => .ok v, defaultValue := none,
           sortedMigrations := [],
           serializer := { parse := fun _ => .ok (.obj [("_version", Value.num ((2 : Int) : ℚ))]),
                           stringify := fun _ _ => "", formatName := "JSON" } }
        "f" (.ok "c") true 0
      = (.error ⟨.UnsupportedVersion,
          "Unsupported file version " ++ toString (2 : Int) ++ " in " ++ "f", none⟩, 0) := by
  rw [(future_version_unsupported_no_migration _ "f" "c"
    [("_version", Value.num ((2 : Int) : ℚ))] ((2 : Int) : ℚ) 1 true 0
    rfl rfl rfl (by decide) (by decide) (by decide)).1]
  rw [failWith_true]
  norm_num

/-- C5: any classified load failure is raised as that error exactly when
`throwOnError` is set or no default is configured (the run then equals the
strict run, with the factory counter untouched); otherwise the call resolves
to the configured default, the factory form being invoked fresh on each such
failing call (it consumes the current invocation index `cnt` and advances the
counter). -/
theorem load_failure_policy (store : Store) (filePath : String)
    (fileRead : Except String String) (throwOnError : Bool) (cnt : Nat) :
    ((store.defaultValue = none ∨ throwOnError = true) →
      load store filePath fileRead throwOnError cnt
        = ((load store filePath fileRead true 0).1, cnt)) ∧
    (∀ d, store.defaultValue = some d → throwOnError = false →
      load store filePath fileRead throwOnError cnt =
        match (load store filePath fileRead true 0).1 with
        | .error _ => (.ok (resolveDefault d cnt).1, (resolveDefault d cnt).2)
        | .ok v => (.ok v, cnt)) := by
  constructor
  · intro h
    rw [load_shape]
    rcases hr : (load store filePath fileRead true 0).1 with e | v
    · simp only [hr]
      rcases h with h | h
      · rw [failWith_none store h]
      · subst h
        rw [failWith_true]
    · simp only [hr]
  · intro d hd hf
    subst hf
    rw [load_shape]
    rcases hr : (load store filePath fileRead true 0).1 with e | v
    · simp only [hr]
      rw [failWith_default store d hd]
    · simp only [hr]

/-- C5 witness: with a factory default and a failing file read, the call at
counter 5 returns the factory's 5th value and advances the counter. -/
theorem load_failure_policy_witness :
    load { currentVersion := none, schemaValidate := fun v => .ok v,
           schemaEncode := fun v => .ok v,
           defaultValue := some (.factory (fun n => Value.num ((n : Nat) : ℚ))),
           sortedMigrations := [],
           serializer := { parse := fun _ => .ok .null, stringify := fun _ _ => "",
                           formatName := "JSON" } }
        "f" (.error "io") false 5
      = (.ok (Value.num ((5 : Nat) : ℚ)), 6) := by
  rw [(load_failure_policy _ "f" (.error "io") false 5).2
    (.factory (fun n => Value.num ((n : Nat) : ℚ))) rfl rfl]
  rfl

/-- C6: a versioned load whose parsed `_version` equals the current version
executes zero migration steps: the domain payload (the parsed document minus
`_version`) is handed unchanged to the final schema validation, and the
outcome is identical for every migrations list. -/
theorem load_at_current_version_identity (store : Store)
    (filePath content : String) (fields : List (String × Value)) (q : ℚ)
    (currentVersion : Int) (throwOnError : Bool) (cnt : Nat)
    (hver : store.currentVersion = some currentVersion)
    (hparse : store.serializer.parse content = .ok (.obj fields))
    (hlk : lookupField fields "_version" = some (.num q))
    (hint : q.den = 1) (hpos : 0 < q) (heq : q.num = currentVersion) :
    load store filePath (.ok content) throwOnError cnt
      = validateFinal store filePath throwOnError cnt
          (.obj (removeField fields "_version")) ∧
    ∀ (migrations : List MigrationStep),
      load { store with sortedMigrations := migrations } filePath (.ok content)
          throwOnError cnt
        = load store filePath (.ok content) throwOnError cnt := by
  have hpi : asPositiveInt (.num q) = some q.num := by
    simp only [asPositiveInt]
    rw [if_pos ⟨hint, hpos⟩]
  have hngt : ¬ q.num > currentVersion := by omega
  constructor
  · simp only [load, hparse, hver, hlk, hpi, if_neg hngt]
    rw [migrateLoop_stop _ _ _ _ _ _ _ (by omega)]
  · intro migrations
    simp only [load, hparse, hver, hlk, hpi, if_neg hngt]
    rw [migrateLoop_stop _ _ _ _ _ _ _ (by omega),
      migrateLoop_stop _ _ _ _ _ _ _ (by omega)]
    rfl

/-- C6 witness: a version-2 store loading a file already at `_version = 2`
returns the payload (the document without `_version`) validated as is. -/
theorem load_at_current_version_identity_witness :
    load { currentVersion := some 2, schemaValidate := fun v => .ok v,
           schemaEncode := fun v => .ok v, defaultValue := none,
           sortedMigrations := [],
           serializer := { parse := fun _ => .ok (.obj [("_version", Value.num ((2 : Int) : ℚ)), ("theme", Value.str "dark")]), stringify := fun _ _ => "", formatName := "JSON" } }
        "f" (.ok "c") true 0
      = (.ok (.obj [("theme", Value.str "dark")]), 0) := by
  rw [(load_at_current_version_identity _ "f" "c"
    [("_version", Value.num ((2 : Int) : ℚ)), ("theme", Value.str "dark")]
    ((2 : Int) : ℚ) 2 true 0 rfl rfl rfl (by decide) (by decide) (by decide)).1]
  rfl

/-- C10: whenever the default fallback fires (the strict pipeline failed, a
default is configured, `throwOnError` is false), the configured default — or
the factory's fresh product — is returned exactly as supplied, bypassing the
current schema entirely: the conclusion holds with no hypothesis about
`schemaValidate` accepting it. -/
theorem default_returned_unvalidated (store : Store) (filePath : String)
    (fileRead : Except String String) (cnt : Nat) (d : DefaultValue)
    (hd : store.defaultValue = some d) (e : ZodStoreError)
    (hfail : (load store filePath fileRead true 0).1 = .error e) :
    load store filePath fileRead false cnt
      = (.ok (resolveDefault d cnt).1, (resolveDefault d cnt).2) := by
  rw [load_shape]
  simp only [hfail]
  rw [failWith_default store d hd]

/-- C10 witness: a schema that rejects every value still sees the configured
default `Value.str "bad"` — which itself fails that schema — returned
unchanged. -/
theorem default_returned_unvalidated_witness :
    load { currentVersion := none, schemaValidate := fun _ => .error "nope",
           schemaEncode := fun v => .ok v,
           defaultValue := some (.fixed (Value.str "bad")),
           sortedMigrations := [],
           serializer := { parse := fun _ => .ok .null, stringify := fun _ _ => "",
                           formatName := "JSON" } }
        "f" (.ok "c") false 0
      = (.ok (Value.str "bad"), 0) :=
  default_returned_unvalidated _ "f" (.ok "c") 0 (.fixed (Value.str "bad")) rfl
    ⟨.Validation, "Schema validation failed for file: " ++ "f", some "nope"⟩ rfl

/-- C7 counterexample: with an encoded record carrying the array-index key
`"0"`, the serialized enumeration order puts `"0"` before `_version`, so
`_version` is not the first serialized key; and an encoded array satisfies
the source's `typeof === 'object'` guard and is spread as its index
properties, rather than yielding `{ _version }` alone. -/
theorem serialized_version_first_counterexample :
    saveFileData { currentVersion := some 2, schemaValidate := fun v => .ok v,
                   schemaEncode := fun _ => .ok (.obj [("0", Value.null)]),
                   defaultValue := none, sortedMigrations := [],
                   serializer := { parse := fun _ => .ok .null, stringify := fun _ _ => "", formatName := "JSON" } }
        (.obj [("0", Value.null)]) "f"
      = .ok (.obj [("_version", Value.num ((2 : Int) : ℚ)), ("0", Value.null)]) ∧
    enumFields [("_version", Value.num ((2 : Int) : ℚ)), ("0", Value.null)]
      = [("0", Value.null), ("_version", Value.num ((2 : Int) : ℚ))] ∧
    saveFileData { currentVersion := some 2, schemaValidate := fun v => .ok v,
                   schemaEncode := fun _ => .ok (.arr [Value.null]),
                   defaultValue := none, sortedMigrations := [],
                   serializer := { parse := fun _ => .ok .null, stringify := fun _ _ => "", formatName := "JSON" } }
        (.arr [Value.null]) "f"
      = .ok (.obj [("_version", Value.num ((2 : Int) : ℚ)), ("0", Value.null)]) :=
  ⟨rfl, rfl, rfl⟩

/-- C7 (amended): on a versioned instance the value handed to the serializer
is `{ _version: currentVersion, ...encoded }` in property-creation order —
`_version` created first with value `currentVersion`, then the encoded
fields (a JavaScript record: unique keys, none of them the reserved
`_version`); in the serialized enumeration order `_version` is the first key
provided the encoded fields contain no array-index keys (canonical integer
keys enumerate ahead of it).  An encoded array passes the source's
`typeof === 'object'` guard and is spread as its index properties after
`_version`; when the encoded value is a non-object primitive — a string,
number, boolean or null — the serialized value is
`{ _version: currentVersion }` alone; on an unversioned instance it is the
encoded value itself, unwrapped. -/
theorem save_writes_version_first (store : Store) (filePath : String)
    (data : Value) (currentVersion : Int) (efs : List (String × Value))
    (hver : store.currentVersion = some currentVersion)
    (henc : store.schemaEncode data = .ok (.obj efs))
    (hnc : ∀ p ∈ efs, p.1 ≠ "_version") (hnodup : (efs.map Prod.fst).Nodup) :
    saveFileData store data filePath
      = .ok (.obj (("_version", Value.num ((currentVersion : Int) : ℚ)) :: efs)) ∧
    ((∀ p ∈ efs, arrayIndexKey p.1 = none) →
      enumFields (("_version", Value.num ((currentVersion : Int) : ℚ)) :: efs)
        = ("_version", Value.num ((currentVersion : Int) : ℚ)) :: efs) ∧
    (∀ (store2 : Store) (data2 : Value) (elems : List Value),
      store2.currentVersion = some currentVersion →
      store2.schemaEncode data2 = .ok (.arr elems) →
      saveFileData store2 data2 filePath
        = .ok (.obj (("_version", Value.num ((currentVersion : Int) : ℚ))
            :: arrayFields elems))) ∧
    (∀ (store2 : Store) (data2 enc2 : Value),
      store2.currentVersion = some currentVersion →
      store2.schemaEncode data2 = .ok enc2 →
      (∀ fs2, enc2 ≠ .obj fs2) → (∀ es2, enc2 ≠ .arr es2) →
      saveFileData store2 data2 filePath
        = .ok (.obj [("_version", Value.num ((currentVersion : Int) : ℚ))])) ∧
    (∀ (store3 : Store) (data3 enc3 : Value),
      store3.currentVersion = none →
      store3.schemaEncode data3 = .ok enc3 →
      saveFileData store3 data3 filePath = .ok enc3) := by
  refine ⟨?_, ?_, ?_, ?_, ?_⟩
  · simp only [saveFileData, henc, hver]
    rw [wrapVersion_obj currentVersion efs hnc hnodup]
  · intro hnoidx
    apply enumFields_no_index
    intro p hp
    rcases List.mem_cons.mp hp with h | h
    · rw [h]
      rfl
    · exact hnoidx p h
  · intro store2 data2 elems hver2 henc2
    simp only [saveFileData, henc2, hver2]
    simp only [wrapVersion]
    rw [foldl_setField_arrayFields]
  · intro store2 data2 enc2 hver2 henc2 hnobj hnarr
    simp only [saveFileData, henc2, hver2]
    rcases enc2 with _ | _ | _ | _ | elems | fs2
    · rfl
    · rfl
    · rfl
    · rfl
    · exact absurd rfl (hnarr elems)
    · exact absurd rfl (hnobj fs2)
  · intro store3 data3 enc3 hver3 henc3
    simp only [saveFileData, henc3, hver3]
    rfl

/-- C7 witness: a version-2 instance encoding `{theme: "dark"}` — no
array-index keys — serializes `{_version: 2, theme: "dark"}`, with
`_version` first both in creation order and in enumeration order. -/
theorem save_writes_version_first_witness :
    saveFileData { currentVersion := some 2, schemaValidate := fun v => .ok v,
                   schemaEncode := fun _ => .ok (.obj [("theme", Value.str "dark")]),
                   defaultValue := none, sortedMigrations := [],
                   serializer := { parse := fun _ => .ok .null, stringify := fun _ _ => "", formatName := "JSON" } }
      (.obj [("theme", Value.str "dark")]) "f"
      = .ok (.obj [("_version", Value.num ((2 : Int) : ℚ)), ("theme", Value.str "dark")]) ∧
    enumFields [("_version", Value.num ((2 : Int) : ℚ)), ("theme", Value.str "dark")]
      = [("_version", Value.num ((2 : Int) : ℚ)), ("theme", Value.str "dark")] := by
  have h := save_writes_version_first
    { currentVersion := some 2, schemaValidate := fun v => .ok v,
      schemaEncode := fun _ => .ok (.obj [("theme", Value.str "dark")]),
      defaultValue := none, sortedMigrations := [],
      serializer := { parse := fun _ => .ok .null, stringify := fun _ _ => "", formatName := "JSON" } }
    "f" (.obj [("theme", Value.str "dark")]) 2
    [("theme", Value.str "dark")] rfl rfl
    (by intro p hp; simp at hp; rw [hp]; decide)
    (by simp)
  exact ⟨h.1, h.2.1 (by intro p hp; simp at hp; rw [hp]; rfl)⟩

/-- C2: on a validly constructed versioned instance with a full (non-empty)
migration chain, loading a document at `_version = k`, `1 ≤ k < V`, is the
sequential application of exactly the chain suffix starting at version `k`:
`V - k` steps, ascending by source version, each step validating the current
data against its declared schema before its migrate function runs
(`applySteps` interleaves them in that order); a mid-chain schema rejection or
transform failure is classified `Migration` (never `Validation`) and carries
the original error as cause. -/
theorem load_applies_exact_migration_chain
    (options : ZodStoreOptions) (serializer : Serializer) (store : Store)
    (filePath content : String) (fields : List (String × Value))
    (currentVersion k : Int) (throwOnError : Bool) (cnt : Nat)
    (hcreate : createZodStore options serializer = .ok store)
    (hver : options.version = some currentVersion)
    (hne : options.migrations ≠ [])
    (hparse : store.serializer.parse content = .ok (.obj fields))
    (hlk : lookupField fields "_version" = some (.num ((k : Int) : ℚ)))
    (hk1 : 1 ≤ k) (hk2 : k < currentVersion) :
    (load store filePath (.ok content) throwOnError cnt =
      match applySteps filePath (store.sortedMigrations.drop (k - 1).toNat)
          (.obj (removeField fields "_version")) with
      | .ok migrated => validateFinal store filePath throwOnError cnt migrated
      | .error e => failWith store throwOnError cnt e) ∧
    (store.sortedMigrations.drop (k - 1).toNat).length = (currentVersion - k).toNat ∧
    (store.sortedMigrations.drop (k - 1).toNat).map (fun m => m.version)
      = intRangeFrom k (currentVersion - k).toNat ∧
    (∀ e, applySteps filePath (store.sortedMigrations.drop (k - 1).toNat)
          (.obj (removeField fields "_version")) = .error e →
      e.code = .Migration ∧ e.cause.isSome = true) := by
  obtain ⟨hmap, hlen, hcv⟩ := createZodStore_ok_chain options serializer store
    currentVersion hcreate hver hne
  have hq : (0 : ℚ) < ((k : Int) : ℚ) := by
    exact_mod_cast (by omega : (0 : Int) < k)
  have hpi : asPositiveInt (.num ((k : Int) : ℚ)) = some k := by
    simp only [asPositiveInt]
    rw [if_pos ⟨Rat.den_intCast k, hq⟩, Rat.num_intCast]
  refine ⟨?_, ?_, ?_, applySteps_error_classified filePath _ _⟩
  · simp only [load, hparse, hcv, hlk, hpi, if_neg (by omega : ¬ k > currentVersion)]
    rw [migrateLoop_eq_applySteps store filePath throwOnError cnt currentVersion hmap hlen
      (currentVersion - k).toNat k _ rfl hk1 (by omega)]
    rcases happ : applySteps filePath (store.sortedMigrations.drop (k - 1).toNat)
        (.obj (removeField fields "_version")) with e | migrated
    · simp only [happ]
    · simp only [happ]
  · rw [List.length_drop]
    omega
  · rw [List.map_drop, hmap, intRangeFrom_drop]
    congr 1 <;> omega

/-- C2 witness: a three-version chain applied to a version-1 document runs
both steps in order and yields the second step's output. -/
theorem load_applies_exact_migration_chain_witness :
    load (mkStore
        { schemaValidate := fun v => .ok v, schemaEncode := fun v => .ok v,
          defaultValue := none, version := some 3,
          migrations := [
            { version := 1, schema := fun v => .ok v,
              migrate := fun _ => .ok (Value.str "v2") },
            { version := 2, schema := fun v => .ok v,
              migrate := fun _ => .ok (Value.str "v3") }] }
        { parse := fun _ => .ok (.obj [("_version", Value.num ((1 : Int) : ℚ))]),
          stringify := fun _ _ => "", formatName := "JSON" })
      "f" (.ok "c") true 0 = (.ok (Value.str "v3"), 0) := by
  rw [(load_applies_exact_migration_chain
    { schemaValidate := fun v => .ok v, schemaEncode := fun v => .ok v,
      defaultValue := none, version := some 3,
      migrations := [
        { version := 1, schema := fun v => .ok v,
          migrate := fun _ => .ok (Value.str "v2") },
        { version := 2, schema := fun v => .ok v,
          migrate := fun _ => .ok (Value.str "v3") }] }
    { parse := fun _ => .ok (.obj [("_version", Value.num ((1 : Int) : ℚ))]),
      stringify := fun _ _ => "", formatName := "JSON" }
    _ "f" "c" [("_version", Value.num ((1 : Int) : ℚ))] 3 1 true 0
    rfl rfl (by simp) rfl rfl (by decide) (by decide)).1]
  rfl

unseal migrateLoop in
/-- C8 counterexample: the constructor accepts `version: 2` with an empty
migrations list (the chain checks are skipped for empty lists), and loading a
file at `_version = 1` on that validly constructed instance reaches the
migration-lookup-failure branch: a `Migration` error with the
`No migration found ...` message and no cause. -/
theorem migration_lookup_reachable_counterexample :
    createZodStore
        { schemaValidate := fun v => .ok v, schemaEncode := fun v => .ok v,
          defaultValue := none, version := some 2, migrations := [] }
        { parse := fun _ => .ok (.obj [("_version", Value.num ((1 : Int) : ℚ))]),
          stringify := fun _ _ => "", formatName := "JSON" }
      = .ok { currentVersion := some 2, schemaValidate := fun v => .ok v,
              schemaEncode := fun v => .ok v, defaultValue := none,
              sortedMigrations := [],
              serializer := { parse := fun _ => .ok (.obj [("_version", Value.num ((1 : Int) : ℚ))]),
                              stringify := fun _ _ => "", formatName := "JSON" } } ∧
    (load { currentVersion := some 2, schemaValidate := fun v => .ok v,
            schemaEncode := fun v => .ok v, defaultValue := none,
            sortedMigrations := [],
            serializer := { parse := fun _ => .ok (.obj [("_version", Value.num ((1 : Int) : ℚ))]),
                            stringify := fun _ _ => "", formatName := "JSON" } }
        "f" (.ok "c") true 0).1
      = .error ⟨.Migration, "No migration found for version " ++ toString (1 : Int)
          ++ " in file: " ++ "f", none⟩ :=
  ⟨rfl, rfl⟩

/-- C8 (amended): on a validly constructed instance whose migrations list is
non-empty — so the chain covers every version `1..V-1` — and a document
version `k` with `1 ≤ k ≤ V`, the migration-lookup-failure branch is
unreachable: the load equals `applySteps` on the chain suffix (a computation
with no lookup and whose errors always carry a cause), and any error the load
surfaces is never a cause-less `Migration` error such as
`No migration found ...`. -/
theorem migration_lookup_unreachable_nonempty_chain
    (options : ZodStoreOptions) (serializer : Serializer) (store : Store)
    (filePath content : String) (fields : List (String × Value))
    (currentVersion k : Int) (throwOnError : Bool) (cnt : Nat)
    (hcreate : createZodStore options serializer = .ok store)
    (hver : options.version = some currentVersion)
    (hne : options.migrations ≠ [])
    (hparse : store.serializer.parse content = .ok (.obj fields))
    (hlk : lookupField fields "_version" = some (.num ((k : Int) : ℚ)))
    (hk1 : 1 ≤ k) (hk2 : k ≤ currentVersion) :
    (load store filePath (.ok content) throwOnError cnt =
      match applySteps filePath (store.sortedMigrations.drop (k - 1).toNat)
          (.obj (removeField fields "_version")) with
      | .ok migrated => validateFinal store filePath throwOnError cnt migrated
      | .error e => failWith store throwOnError cnt e) ∧
    (∀ e, (load store filePath (.ok content) throwOnError cnt).1 = .error e →
      ¬ (e.code = .Migration ∧ e.cause = none)) := by
  obtain ⟨hmap, hlen, hcv⟩ := createZodStore_ok_chain options serializer store
    currentVersion hcreate hver hne
  have hq : (0 : ℚ) < ((k : Int) : ℚ) := by
    exact_mod_cast (by omega : (0 : Int) < k)
  have hpi : asPositiveInt (.num ((k : Int) : ℚ)) = some k := by
    simp only [asPositiveInt]
    rw [if_pos ⟨Rat.den_intCast k, hq⟩, Rat.num_intCast]
  have hmain : load store filePath (.ok content) throwOnError cnt =
      match applySteps filePath (store.sortedMigrations.drop (k - 1).toNat)
          (.obj (removeField fields "_version")) with
      | .ok migrated => validateFinal store filePath throwOnError cnt migrated
      | .error e => failWith store throwOnError cnt e := by
    simp only [load, hparse, hcv, hlk, hpi, if_neg (by omega : ¬ k > currentVersion)]
    rw [migrateLoop_eq_applySteps store filePath throwOnError cnt currentVersion hmap hlen
      (currentVersion - k).toNat k _ rfl hk1 hk2]
    rcases happ : applySteps filePath (store.sortedMigrations.drop (k - 1).toNat)
        (.obj (removeField fields "_version")) with e | migrated
    · simp only [happ]
    · simp only [happ]
  refine ⟨hmain, ?_⟩
  intro e he
  rw [hmain] at he
  rcases happ : applySteps filePath (store.sortedMigrations.drop (k - 1).toNat)
      (.obj (removeField fields "_version")) with e0 | migrated
  · simp only [happ] at he
    have he0 := failWith_fst_error _ _ _ _ _ he
    subst he0
    have hcl := applySteps_error_classified filePath _ _ _ happ
    rintro ⟨_, hcnone⟩
    rw [hcnone] at hcl
    exact absurd hcl.2 (by simp)
  · simp only [happ] at he
    have hvf := validateFinal_fst_error _ _ _ _ _ _ he
    rintro ⟨hcode, _⟩
    exact absurd (hvf.1.symm.trans hcode) (by decide)

/-- C8 amended-claim witness: a version-2 instance with its one-step chain
migrates a version-1 document instead of reaching the lookup failure. -/
theorem migration_lookup_unreachable_nonempty_chain_witness :
    load (mkStore
        { schemaValidate := fun v => .ok v, schemaEncode := fun v => .ok v,
          defaultValue := none, version := some 2,
          migrations := [
            { version := 1, schema := fun v => .ok v,
              migrate := fun _ => .ok (Value.str "v2") }] }
        { parse := fun _ => .ok (.obj [("_version", Value.num ((1 : Int) : ℚ))]),
          stringify := fun _ _ => "", formatName := "JSON" })
      "f" (.ok "c") true 0 = (.ok (Value.str "v2"), 0) := by
  rw [(migration_lookup_unreachable_nonempty_chain
    { schemaValidate := fun v => .ok v, schemaEncode := fun v => .ok v,
      defaultValue := none, version := some 2,
      migrations := [
        { version := 1, schema := fun v => .ok v,
          migrate := fun _ => .ok (Value.str "v2") }] }
    { parse := fun _ => .ok (.obj [("_version", Value.num ((1 : Int) : ℚ))]),
      stringify := fun _ _ => "", formatName := "JSON" }
    _ "f" "c" [("_version", Value.num ((1 : Int) : ℚ))] 2 1 true 0
    rfl rfl (by simp) rfl rfl (by decide) (by decide)).1]
  rfl

/-- C1: `createZodStore` succeeds exactly when the migrations list, sorted
ascending by version, is the contiguous sequence `1, 2, ..., currentVersion-1`
— trivially so for the empty list, and with `currentVersion` necessarily
defined when the list is non-empty.  Every other list (gap, duplicate,
out-of-range version, last step not `currentVersion - 1`, or a non-empty list
with no configured version) makes construction fail synchronously from the
factory, before any load or save is possible. -/
theorem construction_succeeds_iff_contiguous_chain
    (options : ZodStoreOptions) (serializer : Serializer) :
    (createZodStore options serializer).isOk = true ↔
      (options.migrations = [] ∨
        ∃ currentVersion, options.version = some currentVersion ∧
          (sortMigrations options.migrations).map (fun m => m.version)
            = intRangeFrom 1 (currentVersion - 1).toNat) := by
  simp only [createZodStore]
  rcases hc : checkSequential (sortMigrations options.migrations) 1 with e | u
  · dsimp only
    simp only [Except.isOk, Except.toBool]
    constructor
    · intro h; exact absurd h (by simp)
    · rintro (hnil | ⟨V, hV, hmap⟩)
      · rw [(sortMigrations_eq_nil_iff _).mpr hnil] at hc
        exact absurd hc (by simp [checkSequential])
      · have hlen : (sortMigrations options.migrations).length = (V - 1).toNat :=
          map_length_of_range _ _ hmap
        rw [(checkSequential_ok_iff _ _).mpr (by rw [hlen]; exact hmap)] at hc
        exact absurd hc (by simp)
  · cases u
    dsimp only
    rcases hl : (sortMigrations options.migrations).getLast? with _ | last
    · dsimp only
      simp only [Except.isOk, Except.toBool]
      have hnil : sortMigrations options.migrations = [] :=
        List.getLast?_eq_none_iff.mp hl
      constructor
      · intro _; exact Or.inl ((sortMigrations_eq_nil_iff _).mp hnil)
      · intro _; trivial
    · dsimp only
      have hne : sortMigrations options.migrations ≠ [] := by
        intro hnil; rw [hnil] at hl; exact absurd hl (by simp)
      have hmnil : options.migrations ≠ [] := by
        intro hnil; exact hne ((sortMigrations_eq_nil_iff _).mpr hnil)
      have hmap0 : (sortMigrations options.migrations).map (fun m => m.version)
          = intRangeFrom 1 (sortMigrations options.migrations).length :=
        (checkSequential_ok_iff _ _).mp (by rw [hc])
      have hpos : 0 < (sortMigrations options.migrations).length :=
        List.length_pos.mpr hne
      have hlastv : last.version = ((sortMigrations options.migrations).length : Int) :=
        getLast_version_of_range _ _ _ hmap0 hl hpos
      rcases hv : options.version with _ | V
      · dsimp only
        simp only [Except.isOk, Except.toBool]
        constructor
        · intro h; exact absurd h (by simp)
        · rintro (hnil | ⟨V, hV, _⟩)
          · exact absurd hnil hmnil
          · exact absurd hV (by simp)
      · dsimp only
        by_cases hlv : last.version = V - 1
        · rw [if_neg (by simp [hlv])]
          simp only [Except.isOk, Except.toBool]
          constructor
          · intro _
            refine Or.inr ⟨V, rfl, ?_⟩
            have hvl : ((sortMigrations options.migrations).length : Int) = V - 1 := by
              rw [← hlastv, hlv]
            rw [hmap0]
            congr 1
            omega
          · intro _; trivial
        · rw [if_pos (by simp [hlv])]
          simp only [Except.isOk, Except.toBool]
          constructor
          · intro h; exact absurd h (by simp)
          · rintro (hnil | ⟨V', hV', hmap⟩)
            · exact absurd hnil hmnil
            · exfalso
              have hV2 : V = V' := by injection hV'
              have hlen : (sortMigrations options.migrations).length = (V' - 1).toNat :=
                map_length_of_range _ _ hmap
              apply hlv
              rw [hlastv]
              omega


/-- C3: round-trip — for a value `x` the schema accepts, `save` then `load`
of the written text returns `x`, in both unversioned and versioned modes and
for any serializer, under the hypotheses that the serializer's `parse`
inverts its `stringify` at the written document, that the schema's validation
inverts its encoding at `x`, and that the file system returns exactly the
written text (the load is run on the saved content).  In versioned mode the
encoded value is a JavaScript object — unique keys, none of them the reserved
`_version` — and the configured version is positive. -/
theorem save_load_roundtrip (store : Store) (filePath : String)
    (x encoded : Value) (compact throwOnError : Bool) (cnt : Nat)
    (henc : store.schemaEncode x = .ok encoded)
    (hval : store.schemaValidate encoded = .ok x)
    (hser : store.serializer.parse
        (store.serializer.stringify (wrapVersion store.currentVersion encoded) compact)
      = .ok (wrapVersion store.currentVersion encoded))
    (hmode : store.currentVersion = none ∨
      ∃ currentVersion efs, store.currentVersion = some currentVersion ∧
        1 ≤ currentVersion ∧ encoded = .obj efs ∧
        (∀ p ∈ efs, p.1 ≠ "_version") ∧ (efs.map Prod.fst).Nodup) :
    save store x filePath compact
      = .ok (store.serializer.stringify (wrapVersion store.currentVersion encoded) compact) ∧
    load store filePath
        (.ok (store.serializer.stringify (wrapVersion store.currentVersion encoded) compact))
        throwOnError cnt
      = (.ok x, cnt) := by
  constructor
  · simp only [save, saveFileData, henc]
  · rcases hmode with hnone | ⟨currentVersion, efs, hsome, hV1, hobj, hnc, hnodup⟩
    · rw [hnone] at hser ⊢
      simp only [wrapVersion] at hser ⊢
      simp only [load, hser, hnone, validateFinal, hval]
    · subst hobj
      have hwrap := wrapVersion_obj currentVersion efs hnc hnodup
      rw [hsome] at hser ⊢
      rw [hwrap] at hser ⊢
      have hlk : lookupField
          (("_version", Value.num ((currentVersion : Int) : ℚ)) :: efs) "_version"
          = some (.num ((currentVersion : Int) : ℚ)) := by
        simp [lookupField]
      have hq : (0 : ℚ) < ((currentVersion : Int) : ℚ) := by
        exact_mod_cast (by omega : (0 : Int) < currentVersion)
      have hpi : asPositiveInt (.num ((currentVersion : Int) : ℚ))
          = some currentVersion := by
        simp only [asPositiveInt]
        rw [if_pos ⟨Rat.den_intCast currentVersion, hq⟩, Rat.num_intCast]
      simp only [load, hser, hsome, hlk, hpi,
        if_neg (by omega : ¬ currentVersion > currentVersion)]
      rw [removeField_cons_fresh efs _ hnc]
      rw [migrateLoop_stop _ _ _ _ _ _ _ (by omega)]
      simp only [validateFinal, hval]

/-- C3 witness: a versioned instance round-trips `{theme: "dark"}` through a
serializer writing `"S"`. -/
theorem save_load_roundtrip_witness :
    save { currentVersion := some 1,
           schemaValidate := fun _ => .ok (.obj [("theme", Value.str "dark")]),
           schemaEncode := fun _ => .ok (.obj [("theme", Value.str "dark")]),
           defaultValue := none, sortedMigrations := [],
           serializer := { parse := fun _ => .ok (.obj [("_version", Value.num ((1 : Int) : ℚ)), ("theme", Value.str "dark")]), stringify := fun _ _ => "S", formatName := "JSON" } }
        (.obj [("theme", Value.str "dark")]) "f" false = .ok "S" ∧
    load { currentVersion := some 1,
           schemaValidate := fun _ => .ok (.obj [("theme", Value.str "dark")]),
           schemaEncode := fun _ => .ok (.obj [("theme", Value.str "dark")]),
           defaultValue := none, sortedMigrations := [],
           serializer := { parse := fun _ => .ok (.obj [("_version", Value.num ((1 : Int) : ℚ)), ("theme", Value.str "dark")]), stringify := fun _ _ => "S", formatName := "JSON" } }
        "f" (.ok "S") false 0
      = (.ok (.obj [("theme", Value.str "dark")]), 0) := by
  exact save_load_roundtrip _ "f" (.obj [("theme", Value.str "dark")])
    (.obj [("theme", Value.str "dark")]) false false 0 rfl rfl rfl
    (Or.inr ⟨1, [("theme", Value.str "dark")], rfl, by decide, rfl,
      by intro p hp; simp at hp; rw [hp]; decide, by simp⟩)

/-- C9: a successful versioned load never returns a value with a top-level
`_version` key, whatever the file contents or migrations, given the
reserved-name precondition that `_version` does not collide with schema
fields — rendered as: the schema's validation never outputs a `_version` key,
and (being values of the schema's type) neither do configured defaults. -/
theorem load_success_never_contains_version (store : Store) (filePath : String)
    (fileRead : Except String String) (throwOnError : Bool) (cnt : Nat)
    (currentVersion : Int) (_hver : store.currentVersion = some currentVersion)
    (hschema : ∀ v r, store.schemaValidate v = .ok r →
      r.hasTopKey "_version" = false)
    (hdef : ∀ d, store.defaultValue = some d →
      ∀ n, ((resolveDefault d n).1).hasTopKey "_version" = false)
    (r : Value) (h : (load store filePath fileRead throwOnError cnt).1 = .ok r) :
    r.hasTopKey "_version" = false := by
  rw [load_shape] at h
  rcases hs : (load store filePath fileRead true 0).1 with e | v
  · simp only [hs] at h
    rcases hd : store.defaultValue with _ | d
    · rw [failWith_none store hd] at h
      exact absurd h (by simp)
    · cases throwOnError with
      | true =>
        rw [failWith_true] at h
        exact absurd h (by simp)
      | false =>
        rw [failWith_default store d hd] at h
        have h2 : (resolveDefault d cnt).1 = r := by simpa using h
        rw [← h2]
        exact hdef d hd cnt
  · simp only [hs] at h
    have h2 : v = r := by simpa using h
    subst h2
    obtain ⟨data, hok⟩ := load_strict_ok store filePath fileRead 0 v hs
    exact hschema data v hok

unseal migrateLoop in
/-- C9 witness: a version-1 instance whose schema always outputs
`{a: null}` loads successfully and the result carries no `_version` key. -/
theorem load_success_never_contains_version_witness :
    (load { currentVersion := some 1,
            schemaValidate := fun _ => .ok (.obj [("a", Value.null)]),
            schemaEncode := fun v => .ok v, defaultValue := none,
            sortedMigrations := [],
            serializer := { parse := fun _ => .ok (.obj [("_version", Value.num ((1 : Int) : ℚ))]), stringify := fun _ _ => "", formatName := "JSON" } }
        "f" (.ok "c") true 0).1 = .ok (.obj [("a", Value.null)]) ∧
    Value.hasTopKey (.obj [("a", Value.null)]) "_version" = false := by
  constructor
  · rfl
  · exact load_success_never_contains_version
      { currentVersion := some 1,
        schemaValidate := fun _ => .ok (.obj [("a", Value.null)]),
        schemaEncode := fun v => .ok v, defaultValue := none,
        sortedMigrations := [],
        serializer := { parse := fun _ => .ok (.obj [("_version", Value.num ((1 : Int) : ℚ))]), stringify := fun _ _ => "", formatName := "JSON" } }
      "f" (.ok "c") true 0 1 rfl
      (fun v r h => by cases h; rfl)
      (fun d h => nomatch h)
      (.obj [("a", Value.null)]) rfl

end ZodStore
